import Mathlib

/-!
Verification development for the photo-date filling utility
(src/WX-exif4filler.py).  The program scans a folder of JPG files, reads
the EXIF DateTimeOriginal field of each, extracts a YYYY-MM key from each
filename, groups the rows by that key with pandas, fills missing dates in
30-minute steps anchored at the first day of the month, previews, and on
confirmation writes the dates of files whose EXIF date is still absent.

The embedding below translates the script into pure Lean functions:
Python datetime values become the DateTime structure (second precision,
Nat fields), DataFrame rows become Record, exceptions become Except/Option,
and the filesystem/EXIF environment becomes explicit oracles of type
String -> ExifOutcome.
-/

namespace WXExif

/-- The fields of a Python `datetime` value that the program uses
(second precision; the script never touches microseconds or time zones). -/
structure DateTime where
  year : Nat
  month : Nat
  day : Nat
  hour : Nat
  minute : Nat
  second : Nat
deriving DecidableEq, Repr

/-- One row of the DataFrame built in `main` (source lines 78-85):
filename, full path, the year-month key extracted from the filename
(`none` when the pattern is absent, i.e. pandas NaN), and the capture
timestamp read from EXIF (`none` when absent, i.e. pandas NaT). -/
structure Record where
  file : String
  path : String
  ym : Option String
  date : Option DateTime
deriving DecidableEq, Repr

/-- Python string `<=` is code-point lexicographic; this is the order used
by `sorted(...)` (line 72) and `sort_values("file")` (line 89). -/
def strListLe : List Char → List Char → Bool
  | [], _ => true
  | _ :: _, [] => false
  | a :: xs, b :: ys =>
    if a.toNat < b.toNat then true
    else if b.toNat < a.toNat then false
    else strListLe xs ys

def strLe (a b : String) : Bool := strListLe a.data b.data

/-- Row comparison used by `sort_values("file")`. -/
def fileLe (a b : Record) : Bool := strLe a.file b.file

/-- Insert into an ascending list (helper for the sort model). -/
def insertLe {α : Type} (le : α → α → Bool) (x : α) : List α → List α
  | [] => [x]
  | y :: ys => if le x y then x :: y :: ys else y :: insertLe le x ys

/-- Insertion sort; models `sorted(...)` / `sort_values(...)` (all keys the
program sorts by are distinct filenames, so stability is irrelevant). -/
def insSort {α : Type} (le : α → α → Bool) : List α → List α
  | [] => []
  | x :: xs => insertLe le x (insSort le xs)

/-- The ASCII digit character for `n` (used by `strftime` zero padding). -/
def digitChar (n : Nat) : Char := Char.ofNat (48 + n)

/-- Numeric value of an ASCII digit character. -/
def digitVal (c : Char) : Nat := c.toNat - 48

/-- Value of a digit string, as `int(...)` computes it for digit-only input. -/
def natOfDigits (l : List Char) : Nat := l.foldl (fun acc c => acc * 10 + digitVal c) 0

/-- Split a character list at every occurrence of `sep`; models
`str.split(sep)` for a one-character separator, and the field structure of
the fixed-separator `strptime` format used by the script. -/
def splitChar (sep : Char) : List Char → List (List Char)
  | [] => [[]]
  | c :: cs =>
    if c = sep then [] :: splitChar sep cs
    else
      match splitChar sep cs with
      | [] => [[c]]
      | t :: ts => (c :: t) :: ts

/-- Parse one numeric field of a `strptime` pattern: the token must be all
digits with a length between `lo` and `hi` (CPython's `_strptime` matches
`%Y` as exactly four digits and the other fields here as one or two). -/
def parseTok (lo hi : Nat) (l : List Char) : Option Nat :=
  if lo ≤ l.length ∧ l.length ≤ hi ∧ l.all Char.isDigit then some (natOfDigits l) else none

/-- Gregorian leap-year rule (as in Python's datetime module). -/
def isLeap (y : Nat) : Bool := (y % 4 == 0 && y % 100 != 0) || y % 400 == 0

/-- Days in a month, as validated by the `datetime` constructor. -/
def daysInMonth (y m : Nat) : Nat :=
  if m = 2 then (if isLeap y then 29 else 28)
  else if m = 4 ∨ m = 6 ∨ m = 9 ∨ m = 11 then 30
  else 31

/-- Two-digit zero-padded decimal, as `strftime` renders `%m %d %H %M %S`. -/
def pad2Chars (n : Nat) : List Char := [digitChar (n / 10 % 10), digitChar (n % 10)]

/-- Four-digit zero-padded decimal (the digits a four-digit year prints
as; also the shape `strptime` `%Y` demands). -/
def pad4Chars (n : Nat) : List Char :=
  [digitChar (n / 1000 % 10), digitChar (n / 100 % 10), digitChar (n / 10 % 10), digitChar (n % 10)]

/-- glibc `strftime` `%Y` as CPython delegates to it: plain decimal with
NO zero padding, so years below 1000 print with fewer than four digits.
`datetime` years are 1..9999 (MINYEAR/MAXYEAR), so the four explicit
width cases cover the whole reachable domain. -/
def yearChars (n : Nat) : List Char :=
  if n < 10 then [digitChar n]
  else if n < 100 then [digitChar (n / 10 % 10), digitChar (n % 10)]
  else if n < 1000 then [digitChar (n / 100 % 10), digitChar (n / 10 % 10), digitChar (n % 10)]
  else pad4Chars n

/-- The date half of `strftime("%Y:%m:%d %H:%M:%S")`. -/
def dateChars (dt : DateTime) : List Char :=
  yearChars dt.year ++ (':' :: (pad2Chars dt.month ++ (':' :: pad2Chars dt.day)))

/-- The time half of `strftime("%Y:%m:%d %H:%M:%S")`. -/
def timeChars (dt : DateTime) : List Char :=
  pad2Chars dt.hour ++ (':' :: (pad2Chars dt.minute ++ (':' :: pad2Chars dt.second)))

/-- `new_dt.strftime("%Y:%m:%d %H:%M:%S")` (source line 41), as characters. -/
def formatExifChars (dt : DateTime) : List Char :=
  dateChars dt ++ (' ' :: timeChars dt)

/-- `new_dt.strftime("%Y:%m:%d %H:%M:%S")` (source line 41). -/
def formatExif (dt : DateTime) : String := String.mk (formatExifChars dt)

/-- `datetime.strptime(value, "%Y:%m:%d %H:%M:%S")` (source line 28), over
characters: four-digit year, one-or-two-digit remaining fields, exact `:`
and space separators, no trailing input, and the range validation that
CPython's field regexes plus the `datetime` constructor perform.  A parse
failure is the `ValueError` that the caller catches. -/
def parseExifChars (l : List Char) : Option DateTime :=
  match splitChar ' ' l with
  | [d, t] =>
    match splitChar ':' d, splitChar ':' t with
    | [ys, ms, ds], [hs, ns, ss] =>
      match parseTok 4 4 ys, parseTok 1 2 ms, parseTok 1 2 ds,
            parseTok 1 2 hs, parseTok 1 2 ns, parseTok 1 2 ss with
      | some y, some mo, some dy, some h, some mi, some se =>
        if 1 ≤ y ∧ y ≤ 9999 ∧ 1 ≤ mo ∧ mo ≤ 12 ∧ 1 ≤ dy ∧ dy ≤ daysInMonth y mo
            ∧ h ≤ 23 ∧ mi ≤ 59 ∧ se ≤ 59
        then some ⟨y, mo, dy, h, mi, se⟩ else none
      | _, _, _, _, _, _ => none
    | _, _ => none
  | _ => none

/-- `datetime.strptime(value, "%Y:%m:%d %H:%M:%S")` (source line 28). -/
def parseExifString (s : String) : Option DateTime := parseExifChars s.data

/-- What the environment can hand `get_exif_datetime` for one file:
an exception while opening/decoding, no EXIF block (`_getexif()` falsy),
or the EXIF tag dictionary after `TAGS.get` translation, in iteration
order, as (tag-name, value) pairs. -/
inductive ExifOutcome where
  | exc : ExifOutcome
  | noExif : ExifOutcome
  | tags : List (String × String) → ExifOutcome
deriving DecidableEq, Repr

/-- The loop of source lines 26-28: the value of the first tag whose
translated name is DateTimeOriginal. -/
def findDTO : List (String × String) → Option String
  | [] => none
  | (t, v) :: rest => if t = ("DateTimeOriginal") then some v else findDTO rest

/-- `get_exif_datetime` (source lines 21-31).  Every exception - open
failure, decode failure, or the `ValueError` that `strptime` raises on a
malformed value - is caught by the bare `except` and yields `None`. -/
def get_exif_datetime (src : ExifOutcome) : Option DateTime :=
  match src with
  | ExifOutcome.exc => none
  | ExifOutcome.noExif => none
  | ExifOutcome.tags l =>
    match findDTO l with
    | none => none
    | some v => parseExifString v

/-- The three date fields that `set_exif_datetime` (source lines 34-54)
writes into the EXIF dictionary, each holding the same formatted string:
Exif.DateTimeOriginal, Exif.DateTimeDigitized and 0th.DateTime. -/
def set_exif_datetime (dt : DateTime) : List (String × String) :=
  [(("DateTimeOriginal"), formatExif dt),
   (("DateTimeDigitized"), formatExif dt),
   (("DateTime"), formatExif dt)]

/-- Does `\d{4}-\d{2}` match at the head of the list?  If so, return the
seven matched characters. -/
def ymAt : List Char → Option (List Char)
  | c1 :: c2 :: c3 :: c4 :: c5 :: c6 :: c7 :: _ =>
    if c1.isDigit && c2.isDigit && c3.isDigit && c4.isDigit
        && c5 == '-' && c6.isDigit && c7.isDigit
    then some [c1, c2, c3, c4, c5, c6, c7]
    else none
  | _ => none

/-- `re.search(r"(\d{4}-\d{2})", fname)` over the character list: the
leftmost position where four digits, a hyphen and two digits match. -/
def scanYM : List Char → Option String
  | [] => none
  | l@(_ :: rest) =>
    match ymAt l with
    | some cs => some (String.mk cs)
    | none => scanYM rest

/-- `extract_ym` (source lines 57-59): first `\d{4}-\d{2}` match in the
filename, or `None`. -/
def extract_ym (fname : String) : Option String := scanYM fname.data

/-- `y, m = map(int, month_str.split("-"))` followed by `datetime(y, m, 1)`
(source lines 94-95): exactly two digit-only fields (otherwise the unpack
or `int(...)` raises `ValueError`), then the `datetime` range validation
(year 1..9999, month 1..12; day 1 is always in range).  `none` models the
`ValueError` that propagates out of `fill_month`. -/
def parseYM (s : String) : Option (Nat × Nat) :=
  match splitChar '-' s.data with
  | [a, b] =>
    if a ≠ [] ∧ b ≠ [] ∧ a.all Char.isDigit ∧ b.all Char.isDigit then
      let y := natOfDigits a
      let mo := natOfDigits b
      if 1 ≤ y ∧ y ≤ 9999 ∧ 1 ≤ mo ∧ mo ≤ 12 then some (y, mo) else none
    else none
  | _ => none

/-- The timestamp written for fill-sequence index `seq` (source lines
103-108): `base_day.replace(hour=(seq*30//60)%24, minute=(seq*30)%60,
second=0)` where `base_day = datetime(y, m, 1)`. -/
def slotDate (y m seq : Nat) : DateTime :=
  { year := y, month := m, day := 1,
    hour := seq * 30 / 60 % 24, minute := seq * 30 % 60, second := 0 }

/-- The assignment loop of source lines 103-108: walk the sorted group and
give the `seq`-th missing-date row the `seq`-th slot; rows that already
have a date are left as they are and do not advance `seq`.  (The source
enumerates `na_idx`, the indices of missing-date rows, and writes slot
`seq` at the `seq`-th such index - the same transformation.) -/
def fillSeq (y m : Nat) : Nat → List Record → List Record
  | _, [] => []
  | seq, r :: rs =>
    match r.date with
    | none => { r with date := some (slotDate y m seq) } :: fillSeq y m (seq + 1) rs
    | some _ => r :: fillSeq y m seq rs

/-- Number of missing-date rows (`group["date"].isna()` count). -/
def missingCount : List Record → Nat
  | [] => 0
  | r :: rs => (if r.date.isNone then 1 else 0) + missingCount rs

/-- The dates that `after` holds at exactly the positions where `before`
had no date, in order: the synthetic timestamps of a fill run. -/
def assignedDates (before after : List Record) : List (Option DateTime) :=
  (before.zip after).filterMap (fun p =>
    match p.1.date with
    | none => some p.2.date
    | some _ => none)

/-- `fill_month` (source lines 88-110).  The group is re-sorted by
filename; the key is the first row's `ym` (`iloc[0]`; pandas never passes
an empty group, so the `[]` case is unreachable in the pipeline); a NaN
key returns the group unchanged; a key that fails to parse into a valid
year/month raises `ValueError`, modelled as `Except.error ()`; otherwise
missing dates are filled in 30-minute steps (`na_idx.empty` short-circuit
included as the all-dated branch). -/
def fill_month (group : List Record) : Except Unit (List Record) :=
  match insSort fileLe group with
  | [] => Except.ok []
  | r0 :: rest =>
    match r0.ym with
    | none => Except.ok (r0 :: rest)
    | some s =>
      match parseYM s with
      | none => Except.error ()
      | some ym2 =>
        if (r0 :: rest).all (fun r => r.date.isSome) then Except.ok (r0 :: rest)
        else Except.ok (fillSeq ym2.1 ym2.2 0 (r0 :: rest))

/-- Collapse adjacent duplicates of a sorted list (helper for the distinct
sorted group keys that `groupby` produces). -/
def dedupAdj : List String → List String
  | [] => []
  | [x] => [x]
  | x :: y :: rest => if x = y then dedupAdj (y :: rest) else x :: dedupAdj (y :: rest)

/-- The group keys of `df.groupby("ym")` (source line 112): the distinct
non-null `ym` values in ascending order.  `filterMap Record.ym` drops the
null keys - pandas `groupby` excludes NaN/None keys (default
`dropna=True`), which is why the `pd.isna` branch of `fill_month` is
unreachable in the pipeline. -/
def ymKeys (records : List Record) : List String :=
  dedupAdj (insSort strLe (records.filterMap Record.ym))

/-- One step of the grouped apply: run `fill_month` on the rows whose `ym`
equals the key and append the result.  A `ValueError` inside `fill_month`
propagates (aborting the whole apply). -/
def fillStep (records : List Record) (acc : List Record) (k : String) :
    Except Unit (List Record) := do
  let g ← fill_month (records.filter (fun r => decide (r.ym = some k)))
  pure (acc ++ g)

/-- `filled = df.groupby("ym", group_keys=False).apply(fill_month)`
(source line 112): process each group in key order and concatenate. -/
def fill_all (records : List Record) : Except Unit (List Record) :=
  (ymKeys records).foldlM (fillStep records) []

/-- `f.lower().endswith(".jpg")` (source line 72). -/
def endsWithJpg (f : String) : Bool :=
  match (f.data.map Char.toLower).reverse with
  | 'g' :: 'p' :: 'j' :: '.' :: _ => true
  | _ => false

/-- The scan loop of `main` (source lines 72-85): keep the `.jpg` files,
sort them by name, and build one Record per file, reading EXIF through the
oracle `fs` (one `ExifOutcome` per path). -/
def buildRecords (folder : String) (files : List String) (fs : String → ExifOutcome) :
    List Record :=
  (insSort strLe (files.filter endsWithJpg)).map (fun f =>
    let p := folder ++ "/" ++ f
    { file := f, path := p, ym := extract_ym f, date := get_exif_datetime (fs p) })

/-- The preview flag of source line 126: synthetic marker exactly when the
row's date has `second == 0` and `minute in {0, 30}`. -/
def previewFlag (d : DateTime) : String :=
  if d.second = 0 ∧ (d.minute = 0 ∨ d.minute = 30) then "【补】" else "【原】"

/-- `on_confirm` (source lines 130-136): for every row of `filled`, re-read
the file's EXIF date through the oracle `fs`; issue a write of the row's
date exactly when that live read returns `None`.  The result lists the
(path, written date) pairs in loop order. -/
def on_confirm_writes (filled : List Record) (fs : String → ExifOutcome) :
    List (String × Option DateTime) :=
  filled.filterMap (fun r =>
    match get_exif_datetime (fs r.path) with
    | none => some (r.path, r.date)
    | some _ => none)

/-- Projection out of a successful fill run (for stating concrete facts). -/
def getOk : Except Unit (List Record) → List Record
  | Except.ok l => l
  | Except.error _ => []

/-- Placeholder row for positional lookups in concrete statements. -/
def dummyRec : Record := { file := "", path := "", ym := none, date := none }

/- Concrete inputs used by the per-claim witnesses and counterexamples. -/

/-- A month group with one dated and two missing-date rows. -/
def gC1 : List Record :=
  [{ file := "2024-05_b.jpg", path := "", ym := some ("2024-05"), date := none },
   { file := "2024-05_a.jpg", path := "", ym := some ("2024-05"),
     date := some ⟨2024, 5, 20, 9, 15, 30⟩ },
   { file := "2024-05_c.jpg", path := "", ym := some ("2024-05"), date := none }]

/-- The fill result for `gC1`. -/
def outC1 : List Record :=
  [{ file := "2024-05_a.jpg", path := "", ym := some ("2024-05"),
     date := some ⟨2024, 5, 20, 9, 15, 30⟩ },
   { file := "2024-05_b.jpg", path := "", ym := some ("2024-05"),
     date := some ⟨2024, 5, 1, 0, 0, 0⟩ },
   { file := "2024-05_c.jpg", path := "", ym := some ("2024-05"),
     date := some ⟨2024, 5, 1, 0, 30, 0⟩ }]

/-- A month group with one dated and one missing-date row. -/
def gC2 : List Record :=
  [{ file := "2024-02_y.jpg", path := "", ym := some ("2024-02"), date := none },
   { file := "2024-02_x.jpg", path := "", ym := some ("2024-02"),
     date := some ⟨2024, 2, 10, 12, 0, 5⟩ }]

/-- The dated row of `gC2`. -/
def recXC2 : Record :=
  { file := "2024-02_x.jpg", path := "", ym := some ("2024-02"),
    date := some ⟨2024, 2, 10, 12, 0, 5⟩ }

/-- The fill result for `gC2`. -/
def outC2 : List Record :=
  [{ file := "2024-02_x.jpg", path := "", ym := some ("2024-02"),
     date := some ⟨2024, 2, 10, 12, 0, 5⟩ },
   { file := "2024-02_y.jpg", path := "", ym := some ("2024-02"),
     date := some ⟨2024, 2, 1, 0, 0, 0⟩ }]

/-- A row whose filename encodes the invalid month 13. -/
def rC4 : Record :=
  { file := "2024-13_a.jpg", path := "", ym := some ("2024-13"), date := none }

/-- A group whose year-month key has an invalid month. -/
def gC4 : List Record := [rC4]

/-- A month group with fifty missing-date rows (files named 00 .. 49). -/
def g50 : List Record :=
  (List.range 50).map (fun i =>
    { file := String.mk (pad2Chars i), path := "", ym := some ("2024-05"), date := none })

/-- EXIF oracle for the two-file write scenario: file A carries a date,
file B does not. -/
def fsC5 : String → ExifOutcome := fun p =>
  if p = ("f/A-2024-01.jpg")
  then ExifOutcome.tags [(("DateTimeOriginal"), ("2024:01:15 10:00:00"))]
  else ExifOutcome.noExif

/-- The scan row for file A under `fsC5`. -/
def recAC5 : Record :=
  { file := "A-2024-01.jpg", path := "f/A-2024-01.jpg", ym := some ("2024-01"),
    date := some ⟨2024, 1, 15, 10, 0, 0⟩ }

/-- The fill result of the two-file scenario: A untouched, B filled. -/
def filledC5 : List Record :=
  [recAC5,
   { file := "B-2024-01.jpg", path := "f/B-2024-01.jpg", ym := some ("2024-01"),
     date := some ⟨2024, 1, 1, 0, 0, 0⟩ }]

/-- A month group whose filename encodes the three-digit year 123 - a
valid `datetime` year, so the Filler assigns it a slot. -/
def gC7 : List Record :=
  [{ file := "0123-05_a.jpg", path := "", ym := some ("0123-05"), date := none }]

/-- The scan row of a file whose EXIF read raises. -/
def rC8 : Record := { file := "x.jpg", path := "f/x.jpg", ym := none, date := none }

/-- EXIF oracle for the preview-flag counterexample: the file carries an
original date on a full-hour boundary. -/
def fsC9 : String → ExifOutcome := fun p =>
  if p = ("f/2024-01_a.jpg")
  then ExifOutcome.tags [(("DateTimeOriginal"), ("2024:01:15 10:00:00"))]
  else ExifOutcome.noExif

/-- A one-row input whose date is missing. -/
def recs10 : List Record :=
  [{ file := "2024-03_a.jpg", path := "p", ym := some ("2024-03"), date := none }]

/-- The fill result for `recs10`. -/
def r10f : Record :=
  { file := "2024-03_a.jpg", path := "p", ym := some ("2024-03"),
    date := some ⟨2024, 3, 1, 0, 0, 0⟩ }

/- ------------------------------------------------------------------ -/
/- Helper lemmas                                                       -/
/- ------------------------------------------------------------------ -/

theorem mem_insertLe {α : Type} (le : α → α → Bool) (x a : α) :
    ∀ l : List α, a ∈ insertLe le x l ↔ a = x ∨ a ∈ l := by
  intro l
  induction l with
  | nil => simp [insertLe]
  | cons y ys ih =>
    simp only [insertLe]
    split
    · simp [List.mem_cons]
    · simp only [List.mem_cons, ih]
      tauto

theorem mem_insSort {α : Type} (le : α → α → Bool) (a : α) :
    ∀ l : List α, a ∈ insSort le l ↔ a ∈ l := by
  intro l
  induction l with
  | nil => simp [insSort]
  | cons x xs ih => simp [insSort, mem_insertLe, ih]

theorem fillSeq_length (y m : Nat) :
    ∀ (l : List Record) (seq : Nat), (fillSeq y m seq l).length = l.length := by
  intro l
  induction l with
  | nil => intro seq; rfl
  | cons x xs ih =>
    intro seq
    simp only [fillSeq]
    cases hx : x.date <;> simp [ih]

theorem fillSeq_dates (y m : Nat) :
    ∀ (l : List Record) (seq : Nat) (r : Record), r ∈ fillSeq y m seq l → r.date ≠ none := by
  intro l
  induction l with
  | nil => intro seq r h; simp [fillSeq] at h
  | cons x xs ih =>
    intro seq r h
    simp only [fillSeq] at h
    cases hx : x.date with
    | none =>
      rw [hx] at h
      rcases List.mem_cons.mp h with h1 | h1
      · rw [h1]; simp
      · exact ih (seq + 1) r h1
    | some d =>
      rw [hx] at h
      rcases List.mem_cons.mp h with h1 | h1
      · rw [h1, hx]; simp
      · exact ih seq r h1

theorem fillSeq_cons_none (y m : Nat) (x : Record) (xs : List Record) (seq : Nat)
    (h : x.date = none) :
    fillSeq y m seq (x :: xs)
      = { x with date := some (slotDate y m seq) } :: fillSeq y m (seq + 1) xs := by
  simp [fillSeq, h]

theorem fillSeq_cons_some (y m : Nat) (x : Record) (xs : List Record) (seq : Nat)
    (d : DateTime) (h : x.date = some d) :
    fillSeq y m seq (x :: xs) = x :: fillSeq y m seq xs := by
  simp [fillSeq, h]

theorem mem_of_get? {α : Type} : ∀ (l : List α) (i : Nat) (r : α), l[i]? = some r → r ∈ l := by
  intro l
  induction l with
  | nil => intro i r h; simp at h
  | cons x xs ih =>
    intro i r h
    cases i with
    | zero => simp at h; simp [h]
    | succ j => simp only [List.getElem?_cons_succ] at h; exact List.mem_cons_of_mem x (ih j r h)

theorem fillSeq_get_dated (y m : Nat) :
    ∀ (l : List Record) (seq i : Nat) (r : Record),
      l[i]? = some r → r.date ≠ none → (fillSeq y m seq l)[i]? = some r := by
  intro l
  induction l with
  | nil => intro seq i r h; simp at h
  | cons x xs ih =>
    intro seq i r h hdate
    cases hx : x.date with
    | none =>
      rw [fillSeq_cons_none y m x xs seq hx]
      cases i with
      | zero =>
        simp only [List.getElem?_cons_zero, Option.some.injEq] at h
        rw [← h] at hdate
        exact absurd hx hdate
      | succ j =>
        simp only [List.getElem?_cons_succ] at h ⊢
        exact ih (seq + 1) j r h hdate
    | some d =>
      rw [fillSeq_cons_some y m x xs seq d hx]
      cases i with
      | zero => simpa using h
      | succ j =>
        simp only [List.getElem?_cons_succ] at h ⊢
        exact ih seq j r h hdate

theorem fillSeq_get_missing (y m : Nat) :
    ∀ (l : List Record) (seq i : Nat) (r : Record),
      l[i]? = some r → r.date = none →
      (fillSeq y m seq l)[i]?
        = some ({ r with date := some (slotDate y m (seq + missingCount (l.take i))) }) := by
  intro l
  induction l with
  | nil => intro seq i r h; simp at h
  | cons x xs ih =>
    intro seq i r h hdate
    cases hx : x.date with
    | none =>
      rw [fillSeq_cons_none y m x xs seq hx]
      cases i with
      | zero =>
        simp only [List.getElem?_cons_zero, Option.some.injEq] at h
        rw [← h]
        simp [List.take, missingCount]
      | succ j =>
        simp only [List.getElem?_cons_succ] at h ⊢
        rw [ih (seq + 1) j r h hdate]
        have harith : seq + 1 + missingCount (xs.take j)
            = seq + missingCount ((x :: xs).take (j + 1)) := by
          simp [List.take, missingCount, hx]
          omega
        rw [harith]
    | some d =>
      rw [fillSeq_cons_some y m x xs seq d hx]
      cases i with
      | zero =>
        simp only [List.getElem?_cons_zero, Option.some.injEq] at h
        rw [h] at hx
        rw [hx] at hdate
        exact absurd hdate (by simp)
      | succ j =>
        simp only [List.getElem?_cons_succ] at h ⊢
        rw [ih seq j r h hdate]
        have harith : seq + missingCount (xs.take j)
            = seq + missingCount ((x :: xs).take (j + 1)) := by
          simp [List.take, missingCount, hx]
        rw [harith]

theorem assignedDates_cons_none (x z : Record) (xs zs : List Record) (h : x.date = none) :
    assignedDates (x :: xs) (z :: zs) = z.date :: assignedDates xs zs := by
  simp [assignedDates, h]

theorem assignedDates_cons_some (x z : Record) (xs zs : List Record) (d : DateTime)
    (h : x.date = some d) :
    assignedDates (x :: xs) (z :: zs) = assignedDates xs zs := by
  simp [assignedDates, h]

theorem assignedDates_fillSeq (y m : Nat) :
    ∀ (l : List Record) (seq : Nat),
      assignedDates l (fillSeq y m seq l)
        = (List.range (missingCount l)).map (fun i => some (slotDate y m (seq + i))) := by
  intro l
  induction l with
  | nil => intro seq; simp [assignedDates, fillSeq, missingCount]
  | cons x xs ih =>
    intro seq
    cases hx : x.date with
    | none =>
      rw [fillSeq_cons_none y m x xs seq hx, assignedDates_cons_none x _ xs _ hx]
      have hmc : missingCount (x :: xs) = missingCount xs + 1 := by
        simp [missingCount, hx]
        omega
      rw [hmc, List.range_succ_eq_map, ih (seq + 1)]
      simp only [List.map_cons, List.map_map]
      congr 1
      apply List.map_congr_left
      intro i _
      simp only [Function.comp_apply, Nat.succ_eq_add_one]
      have h1 : seq + 1 + i = seq + (i + 1) := by omega
      rw [h1]
    | some d =>
      rw [fillSeq_cons_some y m x xs seq d hx, assignedDates_cons_some x _ xs _ d hx]
      have hmc : missingCount (x :: xs) = missingCount xs := by
        simp [missingCount, hx]
      rw [hmc]
      exact ih seq

theorem all_dated_of_all (l : List Record)
    (h : l.all (fun r => r.date.isSome) = true) : ∀ r ∈ l, r.date ≠ none := by
  intro r hr hnone
  have h2 := List.all_eq_true.mp h r hr
  rw [hnone] at h2
  simp at h2

theorem missingCount_eq_zero :
    ∀ l : List Record, (∀ r ∈ l, r.date ≠ none) → missingCount l = 0 := by
  intro l
  induction l with
  | nil => intro _; rfl
  | cons x xs ih =>
    intro h
    have hx : x.date ≠ none := h x (List.mem_cons_self x xs)
    simp only [missingCount]
    rw [ih (fun r hr => h r (List.mem_cons_of_mem x hr))]
    cases hd : x.date with
    | none => exact absurd hd hx
    | some d => simp [hd]

theorem assignedDates_self :
    ∀ l : List Record, (∀ r ∈ l, r.date ≠ none) → assignedDates l l = [] := by
  intro l
  induction l with
  | nil => intro _; rfl
  | cons x xs ih =>
    intro h
    have hx : x.date ≠ none := h x (List.mem_cons_self x xs)
    simp only [assignedDates, List.zip_cons_cons, List.filterMap_cons]
    cases hd : x.date with
    | none => exact absurd hd hx
    | some d =>
      exact ih (fun r hr => h r (List.mem_cons_of_mem x hr))

/-- Inversion principle for a successful `fill_month` run: the four ways
the source function can return. -/
theorem fill_month_ok_elim (g out : List Record) (hout : fill_month g = Except.ok out) :
    (insSort fileLe g = [] ∧ out = [])
    ∨ (∃ r0 rest, insSort fileLe g = r0 :: rest ∧ r0.ym = none ∧ out = r0 :: rest)
    ∨ (∃ r0 rest s y m, insSort fileLe g = r0 :: rest ∧ r0.ym = some s
        ∧ parseYM s = some (y, m)
        ∧ (((r0 :: rest).all (fun r => r.date.isSome) = true ∧ out = r0 :: rest)
           ∨ out = fillSeq y m 0 (r0 :: rest))) := by
  unfold fill_month at hout
  split at hout
  next heq =>
    simp only [Except.ok.injEq] at hout
    exact Or.inl ⟨heq, hout.symm⟩
  next r0 rest heq =>
    split at hout
    next hym =>
      simp only [Except.ok.injEq] at hout
      exact Or.inr (Or.inl ⟨r0, rest, heq, hym, hout.symm⟩)
    next s hym =>
      split at hout
      next hp => simp at hout
      next ym2 hp =>
        obtain ⟨y, m⟩ := ym2
        split at hout
        next hall =>
          simp only [Except.ok.injEq] at hout
          exact Or.inr (Or.inr ⟨r0, rest, s, y, m, heq, hym, hp, Or.inl ⟨hall, hout.symm⟩⟩)
        next hall =>
          simp only [Except.ok.injEq] at hout
          exact Or.inr (Or.inr ⟨r0, rest, s, y, m, heq, hym, hp, Or.inr hout.symm⟩)

theorem fill_month_dated (g out : List Record) (hym : ∀ r ∈ g, r.ym ≠ none)
    (hout : fill_month g = Except.ok out) : ∀ r ∈ out, r.date ≠ none := by
  rcases fill_month_ok_elim g out hout with ⟨hs, rfl⟩
    | ⟨r0, rest, hs, hym0, rfl⟩
    | ⟨r0, rest, s, y, m, hs, hym0, hp, hbr⟩
  · intro r hr; simp at hr
  · exfalso
    have hr0 : r0 ∈ g := (mem_insSort fileLe r0 g).mp (by rw [hs]; exact List.mem_cons_self r0 rest)
    exact hym r0 hr0 hym0
  · rcases hbr with ⟨hall, rfl⟩ | rfl
    · exact all_dated_of_all (r0 :: rest) hall
    · exact fun r hr => fillSeq_dates y m (r0 :: rest) 0 r hr

theorem foldl_fillStep_dated (records : List Record) :
    ∀ (keys : List String) (acc out : List Record),
      (∀ r ∈ acc, r.date ≠ none) →
      keys.foldlM (fillStep records) acc = Except.ok out →
      ∀ r ∈ out, r.date ≠ none := by
  intro keys
  induction keys with
  | nil =>
    intro acc out hacc h
    simp only [List.foldlM, pure, Except.pure, Except.ok.injEq] at h
    rw [← h]
    exact hacc
  | cons k ks ih =>
    intro acc out hacc h
    simp only [List.foldlM] at h
    cases hstep : fill_month (records.filter (fun r => decide (r.ym = some k))) with
    | error e =>
      rw [fillStep, hstep] at h
      simp [Bind.bind, Except.bind] at h
    | ok gg =>
      rw [fillStep, hstep] at h
      simp only [Bind.bind, Except.bind, pure, Except.pure] at h
      refine ih (acc ++ gg) out ?_ h
      intro r hr
      rcases List.mem_append.mp hr with h3 | h3
      · exact hacc r h3
      · refine fill_month_dated _ gg ?_ hstep r h3
        intro rr hrr hnone
        have hmem := List.mem_filter.mp hrr
        have := of_decide_eq_true hmem.2
        rw [hnone] at this
        exact Option.noConfusion this

/-- C10: every record in the Filler's output (`filled`, source line 112)
carries a date, so the preview loop (line 126) and write loop (lines
132-136), which dereference `row["date"]` unconditionally, never meet a
missing value. -/
theorem C10_output_all_dated (records out : List Record)
    (hout : fill_all records = Except.ok out) : ∀ r ∈ out, r.date ≠ none := by
  refine foldl_fillStep_dated records (ymKeys records) [] out ?_ hout
  intro r hr
  simp at hr

/-- C10 witness: a concrete one-file run; the output record has a date. -/
theorem C10_witness : fill_all recs10 = Except.ok [r10f] ∧ r10f.date ≠ none :=
  ⟨by rfl, C10_output_all_dated recs10 [r10f] (by rfl) r10f (by simp)⟩

/-- C1: in a month group whose key parses as (y, m), the dates assigned to
the missing-date records, taken in filename order, are exactly slot i =
day 1 of (y, m) at hour (i*30 div 60) mod 24, minute (i*30) mod 60,
second 0, for i = 0, 1, 2, ... over the missing-date subsequence
(source lines 88-110). -/
theorem C1_fill_sequence (g out : List Record) (y m : Nat) (s : String)
    (hkey : (insSort fileLe g).head?.bind Record.ym = some s)
    (hparse : parseYM s = some (y, m))
    (hout : fill_month g = Except.ok out) :
    assignedDates (insSort fileLe g) out
      = (List.range (missingCount (insSort fileLe g))).map
          (fun i => some (DateTime.mk y m 1 (i * 30 / 60 % 24) (i * 30 % 60) 0)) := by
  rcases fill_month_ok_elim g out hout with ⟨hs, rfl⟩
    | ⟨r0, rest, hs, hym0, rfl⟩
    | ⟨r0, rest, s2, y2, m2, hs, hym0, hp, hbr⟩
  · rw [hs] at hkey; simp at hkey
  · rw [hs] at hkey
    simp only [List.head?_cons, Option.some_bind] at hkey
    rw [hym0] at hkey
    exact Option.noConfusion hkey
  · rw [hs] at hkey
    simp only [List.head?_cons, Option.some_bind] at hkey
    rw [hym0] at hkey
    have hseq : s2 = s := Option.some.inj hkey
    rw [hseq] at hp
    rw [hparse] at hp
    obtain ⟨hy, hm⟩ := Prod.mk.injEq .. ▸ Option.some.inj hp
    rw [hs]
    rcases hbr with ⟨hall, rfl⟩ | rfl
    · have hd := all_dated_of_all (r0 :: rest) hall
      rw [assignedDates_self (r0 :: rest) hd, missingCount_eq_zero (r0 :: rest) hd]
      simp
    · rw [assignedDates_fillSeq y2 m2 (r0 :: rest) 0]
      rw [← hy, ← hm]
      apply List.map_congr_left
      intro i _
      simp [slotDate]

/-- C1 witness: a three-file group (one already dated), run concretely. -/
theorem C1_witness :
    (insSort fileLe gC1).head?.bind Record.ym = some ("2024-05")
    ∧ parseYM ("2024-05") = some (2024, 5)
    ∧ fill_month gC1 = Except.ok outC1
    ∧ assignedDates (insSort fileLe gC1) outC1
        = (List.range (missingCount (insSort fileLe gC1))).map
            (fun i => some (DateTime.mk 2024 5 1 (i * 30 / 60 % 24) (i * 30 % 60) 0)) :=
  ⟨by decide, by decide, by rfl,
    C1_fill_sequence gC1 outC1 2024 5 ("2024-05") (by decide) (by decide) (by rfl)⟩

/-- C2: a record whose date was present before the fill is returned
identically (the fill never overwrites), and a missing-date record at
position i receives the slot indexed by the number of missing-date records
before position i - dated records consume no fill-sequence slot
(source lines 98-108). -/
theorem C2_preserve_existing (g out : List Record) (y m : Nat) (s : String)
    (hkey : (insSort fileLe g).head?.bind Record.ym = some s)
    (hparse : parseYM s = some (y, m))
    (hout : fill_month g = Except.ok out)
    (i : Nat) (r : Record) (hr : (insSort fileLe g)[i]? = some r) :
    (r.date ≠ none → out[i]? = some r)
    ∧ (r.date = none → out[i]?
        = some ({ r with
            date := some (slotDate y m (missingCount ((insSort fileLe g).take i))) })) := by
  rcases fill_month_ok_elim g out hout with ⟨hs, rfl⟩
    | ⟨r0, rest, hs, hym0, rfl⟩
    | ⟨r0, rest, s2, y2, m2, hs, hym0, hp, hbr⟩
  · rw [hs] at hkey; simp at hkey
  · rw [hs] at hkey
    simp only [List.head?_cons, Option.some_bind] at hkey
    rw [hym0] at hkey
    exact Option.noConfusion hkey
  · rw [hs] at hkey
    simp only [List.head?_cons, Option.some_bind] at hkey
    rw [hym0] at hkey
    have hseq : s2 = s := Option.some.inj hkey
    rw [hseq, hparse] at hp
    obtain ⟨hy, hm⟩ := Prod.mk.injEq .. ▸ Option.some.inj hp
    rw [hs] at hr
    rcases hbr with ⟨hall, rfl⟩ | rfl
    · constructor
      · intro _; exact hr
      · intro hnone
        exfalso
        exact all_dated_of_all (r0 :: rest) hall r (mem_of_get? (r0 :: rest) i r hr) hnone
    · constructor
      · intro hdate
        exact fillSeq_get_dated y2 m2 (r0 :: rest) 0 i r hr hdate
      · intro hnone
        rw [fillSeq_get_missing y2 m2 (r0 :: rest) 0 i r hr hnone]
        rw [hs, ← hy, ← hm]
        simp

/-- C2 witness: concrete two-file group; the dated record is unchanged and
the missing one gets slot 0. -/
theorem C2_witness :
    (insSort fileLe gC2).head?.bind Record.ym = some ("2024-02")
    ∧ parseYM ("2024-02") = some (2024, 2)
    ∧ fill_month gC2 = Except.ok outC2
    ∧ (insSort fileLe gC2)[0]? = some recXC2
    ∧ outC2[0]? = some recXC2 :=
  ⟨by decide, by decide, by rfl, by decide,
    (C2_preserve_existing gC2 outC2 2024 2 ("2024-02") (by decide) (by decide) (by rfl) 0
      recXC2 (by decide)).1 (by decide)⟩

/-- C4 (amended): a group whose year-month key is present but does not
parse into a valid year/month (e.g. month 13) makes `fill_month` raise
`ValueError` (`datetime(y, 13, 1)`, source line 95); the error propagates
- the group is not skipped. -/
theorem C4_invalid_month_error (g : List Record) (r0 : Record) (rest : List Record) (s : String)
    (hs : insSort fileLe g = r0 :: rest) (hym : r0.ym = some s) (hp : parseYM s = none) :
    fill_month g = Except.error () := by
  unfold fill_month
  rw [hs]
  simp [hym, hp]

/-- C4 counterexample: on a group whose filename encodes month 13, the
whole grouped fill aborts with an error instead of skipping the group
unmodified, refuting the claim as stated. -/
theorem C4_counterexample :
    fill_all (buildRecords ("f") [("2024-13_a.jpg")] (fun _ => ExifOutcome.noExif))
      = Except.error () := by rfl

/-- C4 witness: the amended statement applied to the concrete group. -/
theorem C4_witness :
    insSort fileLe gC4 = [rC4] ∧ rC4.ym = some ("2024-13") ∧ parseYM ("2024-13") = none
    ∧ fill_month gC4 = Except.error () :=
  ⟨by decide, by decide, by decide,
    C4_invalid_month_error gC4 rC4 [] ("2024-13") (by decide) (by decide) (by decide)⟩

/-- C3 (code bug): a scanned record whose filename has no YYYY-MM
substring gets `ym = none`; `df.groupby("ym")` (default `dropna=True`,
source line 112) excludes NaN keys, so the record is dropped from the
Filler output entirely - the `pd.isna` pass-through branch of
`fill_month` (lines 91-92) is unreachable dead code.  The input below has
exactly one record, with absent `ym`; the output is empty. -/
theorem C3_absent_ym_dropped :
    (buildRecords ("f") [("a.jpg")] (fun _ => ExifOutcome.noExif)).map Record.ym = [none]
    ∧ fill_all (buildRecords ("f") [("a.jpg")] (fun _ => ExifOutcome.noExif))
        = Except.ok [] :=
  ⟨by decide, by rfl⟩

/-- C6: in a month group with fifty missing-date files, fill-sequence
index 48 wraps the hour to 0 (48*30 = 1440 minutes = 24h): the records at
positions 0 and 48 both receive 00:00:00 on the first day of the month
(source lines 103-108). -/
theorem C6_hour_wrap :
    missingCount g50 = 50
    ∧ (getOk (fill_month g50)).length = 50
    ∧ ((getOk (fill_month g50)).getD 48 dummyRec).date = some (DateTime.mk 2024 5 1 0 0 0)
    ∧ ((getOk (fill_month g50)).getD 0 dummyRec).date = some (DateTime.mk 2024 5 1 0 0 0) :=
  ⟨by decide, by decide, by decide, by decide⟩

/-- C9 counterexample: a file with an ORIGINAL EXIF date on a full-hour
boundary (10:00:00) keeps its date through the fill, yet the preview flag
computed from that date (source line 126) is the synthetic marker - the
flag is not equivalent to "date was absent at scan time". -/
theorem C9_counterexample :
    fill_all (buildRecords ("f") [("2024-01_a.jpg")] fsC9)
      = Except.ok [⟨"2024-01_a.jpg", "f/2024-01_a.jpg", some ("2024-01"),
          some ⟨2024, 1, 15, 10, 0, 0⟩⟩]
    ∧ get_exif_datetime (fsC9 ("f/2024-01_a.jpg")) = some ⟨2024, 1, 15, 10, 0, 0⟩
    ∧ previewFlag ⟨2024, 1, 15, 10, 0, 0⟩ = ("【补】") :=
  ⟨by rfl, by decide, by decide⟩

/-- C9 (amended): the displayed flag is the synthetic marker exactly when
the shown timestamp has second = 0 and minute in {0, 30}; every
Filler-assigned slot satisfies this (so all synthetic timestamps are
marked), but an original timestamp on such a boundary is marked synthetic
too (source line 126). -/
theorem C9_flag_heuristic (d : DateTime) :
    (previewFlag d = ("【补】") ↔ d.second = 0 ∧ (d.minute = 0 ∨ d.minute = 30))
    ∧ ∀ y m i, previewFlag (slotDate y m i) = ("【补】") := by
  constructor
  · unfold previewFlag
    split
    next h => exact iff_of_true rfl h
    next h => exact iff_of_false (by decide) h
  · intro y m i
    unfold previewFlag
    rw [if_pos]
    refine ⟨rfl, ?_⟩
    simp only [slotDate]
    omega

/-- C5: on confirm (source lines 130-136) a write is issued for a path
exactly when the live EXIF re-read of that path returns no date; in
particular, a record whose date was already present at scan time
(`r.date` set from the same oracle during `buildRecords`) is never
written, whatever value would be written. -/
theorem C5_write_guard (folder : String) (files : List String) (fs : String → ExifOutcome)
    (filled : List Record)
    (_hfill : fill_all (buildRecords folder files fs) = Except.ok filled) :
    (∀ p d, (p, d) ∈ on_confirm_writes filled fs → get_exif_datetime (fs p) = none)
    ∧ (∀ r ∈ filled, get_exif_datetime (fs r.path) = none →
        (r.path, r.date) ∈ on_confirm_writes filled fs)
    ∧ (∀ r ∈ buildRecords folder files fs, r.date ≠ none →
        ∀ d, (r.path, d) ∉ on_confirm_writes filled fs) := by
  refine ⟨?_, ?_, ?_⟩
  · intro p d hmem
    simp only [on_confirm_writes, List.mem_filterMap] at hmem
    obtain ⟨r, hr, hcase⟩ := hmem
    cases hread : get_exif_datetime (fs r.path) with
    | none =>
      rw [hread] at hcase
      simp only [Option.some.injEq, Prod.mk.injEq] at hcase
      rw [← hcase.1]
      exact hread
    | some d2 =>
      rw [hread] at hcase
      exact Option.noConfusion hcase
  · intro r hr hread
    simp only [on_confirm_writes, List.mem_filterMap]
    exact ⟨r, hr, by rw [hread]⟩
  · intro r hr hdate d hmem
    simp only [on_confirm_writes, List.mem_filterMap] at hmem
    obtain ⟨r2, hr2, hcase⟩ := hmem
    cases hread : get_exif_datetime (fs r2.path) with
    | some d2 =>
      rw [hread] at hcase
      exact Option.noConfusion hcase
    | none =>
      rw [hread] at hcase
      simp only [Option.some.injEq, Prod.mk.injEq] at hcase
      obtain ⟨hpath, hd⟩ := hcase
      simp only [buildRecords, List.mem_map] at hr
      obtain ⟨f, hf, rfl⟩ := hr
      rw [hpath] at hread
      exact hdate hread

/-- C5 witness: the spec's two-file scenario run concretely - A carries an
original date and is never written; only B is written. -/
theorem C5_witness :
    fill_all (buildRecords ("f") [("A-2024-01.jpg"), ("B-2024-01.jpg")] fsC5)
      = Except.ok filledC5
    ∧ on_confirm_writes filledC5 fsC5
        = [(("f/B-2024-01.jpg"), some ⟨2024, 1, 1, 0, 0, 0⟩)]
    ∧ (recAC5.path, some (DateTime.mk 2024 1 15 10 0 0)) ∉ on_confirm_writes filledC5 fsC5 :=
  ⟨by rfl, by decide,
    (C5_write_guard ("f") [("A-2024-01.jpg"), ("B-2024-01.jpg")] fsC5 filledC5
      (by rfl)).2.2 recAC5 (by decide) (by decide)
      (some (DateTime.mk 2024 1 15 10 0 0))⟩

/-- C8: the Scanner read is total - every scanned file produces exactly
one record whatever the EXIF outcome (an exception never escapes
`get_exif_datetime`, source lines 21-31), and a file whose read raises
gets an absent date. -/
theorem C8_read_nonfatal (folder : String) (files : List String) (fs : String → ExifOutcome) :
    (buildRecords folder files fs).length = (insSort strLe (files.filter endsWithJpg)).length
    ∧ ∀ r ∈ buildRecords folder files fs, fs r.path = ExifOutcome.exc → r.date = none := by
  constructor
  · simp [buildRecords]
  · intro r hr hexc
    simp only [buildRecords, List.mem_map] at hr
    obtain ⟨f, hf, rfl⟩ := hr
    simp only at hexc ⊢
    rw [hexc]
    rfl

/-- C8 witness: a file whose EXIF read raises still yields a record, with
an absent date. -/
theorem C8_witness :
    rC8 ∈ buildRecords ("f") [("x.jpg")] (fun _ => ExifOutcome.exc) ∧ rC8.date = none :=
  ⟨by decide,
    (C8_read_nonfatal ("f") [("x.jpg")] (fun _ => ExifOutcome.exc)).2 rC8 (by decide) rfl⟩

theorem digitChar_isDigit : ∀ k, k < 10 → (digitChar k).isDigit = true := by decide

theorem digitVal_digitChar : ∀ k, k < 10 → digitVal (digitChar k) = k := by decide

theorem digitChar_ne_colon : ∀ k, k < 10 → digitChar k ≠ ':' := by decide

theorem digitChar_ne_space : ∀ k, k < 10 → digitChar k ≠ ' ' := by decide

theorem splitChar_of_not_mem (sep : Char) :
    ∀ l : List Char, sep ∉ l → splitChar sep l = [l] := by
  intro l
  induction l with
  | nil => intro _; rfl
  | cons c cs ih =>
    intro h
    have hc : ¬(c = sep) := fun he => h (he ▸ List.mem_cons_self c cs)
    have hcs : sep ∉ cs := fun hm => h (List.mem_cons_of_mem c hm)
    simp only [splitChar, if_neg hc, ih hcs]

theorem splitChar_append (sep : Char) :
    ∀ (l1 l2 : List Char), sep ∉ l1 →
      splitChar sep (l1 ++ sep :: l2) = l1 :: splitChar sep l2 := by
  intro l1
  induction l1 with
  | nil =>
    intro l2 _
    simp [splitChar]
  | cons c cs ih =>
    intro l2 h
    have hc : ¬(c = sep) := fun he => h (he ▸ List.mem_cons_self c cs)
    have hcs : sep ∉ cs := fun hm => h (List.mem_cons_of_mem c hm)
    rw [List.cons_append]
    simp only [splitChar]
    rw [if_neg hc, ih l2 hcs]

theorem not_mem_pad2 (c : Char) (hc : ∀ k, k < 10 → digitChar k ≠ c) (n : Nat) :
    c ∉ pad2Chars n := by
  intro hmem
  simp only [pad2Chars, List.mem_cons, List.not_mem_nil, or_false] at hmem
  rcases hmem with h | h
  · exact hc (n / 10 % 10) (Nat.mod_lt _ (by omega)) h.symm
  · exact hc (n % 10) (Nat.mod_lt _ (by omega)) h.symm

theorem not_mem_pad4 (c : Char) (hc : ∀ k, k < 10 → digitChar k ≠ c) (n : Nat) :
    c ∉ pad4Chars n := by
  intro hmem
  simp only [pad4Chars, List.mem_cons, List.not_mem_nil, or_false] at hmem
  rcases hmem with h | h | h | h
  · exact hc (n / 1000 % 10) (Nat.mod_lt _ (by omega)) h.symm
  · exact hc (n / 100 % 10) (Nat.mod_lt _ (by omega)) h.symm
  · exact hc (n / 10 % 10) (Nat.mod_lt _ (by omega)) h.symm
  · exact hc (n % 10) (Nat.mod_lt _ (by omega)) h.symm

theorem not_mem_yearChars (c : Char) (hc : ∀ k, k < 10 → digitChar k ≠ c) (n : Nat) :
    c ∉ yearChars n := by
  unfold yearChars
  split
  next h10 =>
    intro hmem
    simp only [List.mem_cons, List.not_mem_nil, or_false] at hmem
    exact hc n (by omega) hmem.symm
  next =>
    split
    next =>
      intro hmem
      simp only [List.mem_cons, List.not_mem_nil, or_false] at hmem
      rcases hmem with h | h
      · exact hc (n / 10 % 10) (Nat.mod_lt _ (by omega)) h.symm
      · exact hc (n % 10) (Nat.mod_lt _ (by omega)) h.symm
    next =>
      split
      next =>
        intro hmem
        simp only [List.mem_cons, List.not_mem_nil, or_false] at hmem
        rcases hmem with h | h | h
        · exact hc (n / 100 % 10) (Nat.mod_lt _ (by omega)) h.symm
        · exact hc (n / 10 % 10) (Nat.mod_lt _ (by omega)) h.symm
        · exact hc (n % 10) (Nat.mod_lt _ (by omega)) h.symm
      next => exact not_mem_pad4 c hc n

/-- For a four-digit year, the unpadded `%Y` rendering coincides with the
four-digit digit list. -/
theorem yearChars_eq_pad4 (n : Nat) (h : 1000 ≤ n) : yearChars n = pad4Chars n := by
  unfold yearChars
  rw [if_neg (by omega), if_neg (by omega), if_neg (by omega)]

theorem space_not_mem_dateChars (dt : DateTime) : ' ' ∉ dateChars dt := by
  intro hmem
  rcases List.mem_append.mp hmem with h | h
  · exact not_mem_yearChars ' ' digitChar_ne_space dt.year h
  · rcases List.mem_cons.mp h with h | h
    · exact absurd h (by decide)
    · rcases List.mem_append.mp h with h | h
      · exact not_mem_pad2 ' ' digitChar_ne_space dt.month h
      · rcases List.mem_cons.mp h with h | h
        · exact absurd h (by decide)
        · exact not_mem_pad2 ' ' digitChar_ne_space dt.day h

theorem space_not_mem_timeChars (dt : DateTime) : ' ' ∉ timeChars dt := by
  intro hmem
  rcases List.mem_append.mp hmem with h | h
  · exact not_mem_pad2 ' ' digitChar_ne_space dt.hour h
  · rcases List.mem_cons.mp h with h | h
    · exact absurd h (by decide)
    · rcases List.mem_append.mp h with h | h
      · exact not_mem_pad2 ' ' digitChar_ne_space dt.minute h
      · rcases List.mem_cons.mp h with h | h
        · exact absurd h (by decide)
        · exact not_mem_pad2 ' ' digitChar_ne_space dt.second h

theorem pad2_all_digits (n : Nat) : (pad2Chars n).all Char.isDigit = true := by
  simp only [pad2Chars, List.all_cons, List.all_nil, Bool.and_true]
  rw [digitChar_isDigit _ (Nat.mod_lt _ (by omega)),
    digitChar_isDigit _ (Nat.mod_lt _ (by omega))]
  rfl

theorem pad4_all_digits (n : Nat) : (pad4Chars n).all Char.isDigit = true := by
  simp only [pad4Chars, List.all_cons, List.all_nil, Bool.and_true]
  rw [digitChar_isDigit _ (Nat.mod_lt _ (by omega)),
    digitChar_isDigit _ (Nat.mod_lt _ (by omega)),
    digitChar_isDigit _ (Nat.mod_lt _ (by omega)),
    digitChar_isDigit _ (Nat.mod_lt _ (by omega))]
  rfl

theorem natOfDigits_pad2 (n : Nat) (h : n < 100) : natOfDigits (pad2Chars n) = n := by
  simp only [natOfDigits, pad2Chars, List.foldl]
  rw [digitVal_digitChar _ (Nat.mod_lt _ (by omega)),
    digitVal_digitChar _ (Nat.mod_lt _ (by omega))]
  omega

theorem natOfDigits_pad4 (n : Nat) (h : n < 10000) : natOfDigits (pad4Chars n) = n := by
  simp only [natOfDigits, pad4Chars, List.foldl]
  rw [digitVal_digitChar _ (Nat.mod_lt _ (by omega)),
    digitVal_digitChar _ (Nat.mod_lt _ (by omega)),
    digitVal_digitChar _ (Nat.mod_lt _ (by omega)),
    digitVal_digitChar _ (Nat.mod_lt _ (by omega))]
  omega

theorem parseTok_pad2 (n : Nat) (h : n < 100) : parseTok 1 2 (pad2Chars n) = some n := by
  unfold parseTok
  rw [if_pos]
  · rw [natOfDigits_pad2 n h]
  · exact ⟨by simp [pad2Chars], by simp [pad2Chars], pad2_all_digits n⟩

theorem parseTok_pad4 (n : Nat) (h : n < 10000) : parseTok 4 4 (pad4Chars n) = some n := by
  unfold parseTok
  rw [if_pos]
  · rw [natOfDigits_pad4 n h]
  · exact ⟨by simp [pad4Chars], by simp [pad4Chars], pad4_all_digits n⟩

theorem daysInMonth_le_31 (y m : Nat) : daysInMonth y m ≤ 31 := by
  unfold daysInMonth
  split
  · split <;> omega
  · split <;> omega

theorem one_le_daysInMonth (y m : Nat) : 1 ≤ daysInMonth y m := by
  unfold daysInMonth
  split
  · split <;> omega
  · split <;> omega

/-- The write-then-read round trip at character level: parsing back a
formatted timestamp recovers every field, provided the year prints with
four digits (1000..9999) - below 1000 the unpadded `%Y` output is shorter
than the four digits `strptime` demands and the parse fails. -/
theorem parse_format (dt : DateTime) (hy1 : 1000 ≤ dt.year) (hy2 : dt.year ≤ 9999)
    (hm1 : 1 ≤ dt.month) (hm2 : dt.month ≤ 12) (hd1 : 1 ≤ dt.day)
    (hd2 : dt.day ≤ daysInMonth dt.year dt.month) (hh : dt.hour ≤ 23)
    (hmi : dt.minute ≤ 59) (hse : dt.second ≤ 59) :
    parseExifChars (formatExifChars dt) = some dt := by
  have hsplit1 : splitChar ' ' (formatExifChars dt) = [dateChars dt, timeChars dt] := by
    rw [formatExifChars,
      splitChar_append ' ' (dateChars dt) (timeChars dt) (space_not_mem_dateChars dt),
      splitChar_of_not_mem ' ' (timeChars dt) (space_not_mem_timeChars dt)]
  have hsplitD : splitChar ':' (dateChars dt)
      = [pad4Chars dt.year, pad2Chars dt.month, pad2Chars dt.day] := by
    rw [dateChars, yearChars_eq_pad4 dt.year hy1,
      splitChar_append ':' (pad4Chars dt.year) _ (not_mem_pad4 ':' digitChar_ne_colon dt.year),
      splitChar_append ':' (pad2Chars dt.month) _ (not_mem_pad2 ':' digitChar_ne_colon dt.month),
      splitChar_of_not_mem ':' (pad2Chars dt.day) (not_mem_pad2 ':' digitChar_ne_colon dt.day)]
  have hsplitT : splitChar ':' (timeChars dt)
      = [pad2Chars dt.hour, pad2Chars dt.minute, pad2Chars dt.second] := by
    rw [timeChars,
      splitChar_append ':' (pad2Chars dt.hour) _ (not_mem_pad2 ':' digitChar_ne_colon dt.hour),
      splitChar_append ':' (pad2Chars dt.minute) _ (not_mem_pad2 ':' digitChar_ne_colon dt.minute),
      splitChar_of_not_mem ':' (pad2Chars dt.second) (not_mem_pad2 ':' digitChar_ne_colon dt.second)]
  simp only [parseExifChars, hsplit1, hsplitD, hsplitT,
    parseTok_pad4 dt.year (by omega), parseTok_pad2 dt.month (by omega),
    parseTok_pad2 dt.day (by have := daysInMonth_le_31 dt.year dt.month; omega),
    parseTok_pad2 dt.hour (by omega), parseTok_pad2 dt.minute (by omega),
    parseTok_pad2 dt.second (by omega)]
  have hy0 : 1 ≤ dt.year := by omega
  rw [if_pos ⟨hy0, hy2, hm1, hm2, hd1, hd2, hh, hmi, hse⟩]

/-- C7 counterexample: the claimed round trip fails for a reachable
Filler year with fewer than four digits.  The filename `0123-05_a.jpg`
yields the valid group key (123, 5); the Filler assigns slot 0; the
Writer's unpadded `%Y` prints `123:05:01 00:00:00`; the Scanner's
`strptime`, whose `%Y` field is exactly four digits, raises, and the
re-read returns `None` instead of the assigned timestamp. -/
theorem C7_counterexample :
    fill_month gC7
      = Except.ok [⟨"0123-05_a.jpg", "", some ("0123-05"), some (slotDate 123 5 0)⟩]
    ∧ formatExif (slotDate 123 5 0) = ("123:05:01 00:00:00")
    ∧ get_exif_datetime (ExifOutcome.tags (set_exif_datetime (slotDate 123 5 0))) = none :=
  ⟨by rfl, by rfl, by rfl⟩

/-- C7 (amended): a Filler-assigned timestamp whose year has four decimal
digits (1000..9999), written through `set_exif_datetime`'s
`strftime("%Y:%m:%d %H:%M:%S")` into the DateTimeOriginal field and
re-read by the Scanner's `strptime` of the same format, comes back equal
to the assigned value to second precision (source lines 21-31 and 34-54).
For years 1..999 the unpadded `%Y` output is shorter than the four digits
`strptime` requires and the re-read yields `None` instead. -/
theorem C7_roundtrip (y m i : Nat) (hy1 : 1000 ≤ y) (hy2 : y ≤ 9999)
    (hm1 : 1 ≤ m) (hm2 : m ≤ 12) :
    get_exif_datetime (ExifOutcome.tags (set_exif_datetime (slotDate y m i)))
      = some (slotDate y m i) := by
  have hhour : (slotDate y m i).hour ≤ 23 := by
    have := Nat.mod_lt (i * 30 / 60) (show 0 < 24 by omega)
    simp only [slotDate]
    omega
  have hmin : (slotDate y m i).minute ≤ 59 := by
    have := Nat.mod_lt (i * 30) (show 0 < 60 by omega)
    simp only [slotDate]
    omega
  have h := parse_format (slotDate y m i) hy1 hy2 hm1 hm2 (le_refl 1)
    (one_le_daysInMonth y m) hhour hmin (by simp [slotDate])
  simp only [get_exif_datetime, set_exif_datetime, findDTO, if_true, parseExifString, formatExif]
  exact h

/-- C7 witness: the round trip at a concrete assigned slot with a
four-digit year. -/
theorem C7_witness :
    (1000 ≤ 2024 ∧ 2024 ≤ 9999 ∧ 1 ≤ 5 ∧ 5 ≤ 12)
    ∧ get_exif_datetime (ExifOutcome.tags (set_exif_datetime (slotDate 2024 5 3)))
        = some (slotDate 2024 5 3) :=
  ⟨by decide, C7_roundtrip 2024 5 3 (by decide) (by decide) (by decide) (by decide)⟩

end WXExif
